import Mathlib

/-!
Shallow embedding of the platypus-todo sample application's first-party logic:
the todo store operations of `TodoControl` (src/js/viewcontrols/todo.viewcontrol.ts)
and `TodoListControl` (src/examples/platypusts/js/templatecontrols/todolist.templatecontrol.ts),
and the localStorage-backed `TodoRepository` (`push`/`pull`) together with a model
of the external `JSON.stringify`/`JSON.parse` pair it calls.

Machine integers do not occur (all counts are small naturals); JavaScript array
indices passed to `splice` are modelled as `Int` to capture negative indices.
-/

/-- The `ITodo` interface (src/interfaces.d.ts): `label: string`,
`completed?: boolean`, `editing?: boolean`.  The optional boolean fields are
modelled as `Bool`, conflating JavaScript `undefined` with `false`: every read
of these fields in the repository is in a boolean position (`if(todo.completed)`,
`view(editing, completed)`), where `undefined` and `false` behave identically,
and every todo the application constructs sets `completed` explicitly. -/
structure ITodo where
  label : String
  completed : Bool
  editing : Bool
deriving Repr, DecidableEq

/-- The set of characters trimmed by JavaScript `String.prototype.trim`
(ASCII whitespace, vertical tab, form feed, NBSP, BOM; the remaining Unicode
space characters of the full ECMA-262 set are omitted from the model). -/
def isJsTrimWs (c : Char) : Bool :=
  c = ' ' || c = '\t' || c = '\n' || c = '\r' ||
  c = Char.ofNat 0x0B || c = Char.ofNat 0x0C ||
  c = Char.ofNat 0xA0 || c = Char.ofNat 0xFEFF

/-- Model of JavaScript `String.prototype.trim`: drop leading and trailing
whitespace characters. -/
def jsTrim (s : String) : String :=
  String.mk (((s.data.dropWhile isJsTrimWs).reverse.dropWhile isJsTrimWs).reverse)

/-- Model of `plat.Utils.isEmpty` applied to a string: per its documentation it
is true exactly for empty strings (and null/undefined, which cannot occur for
the already-trimmed string it is applied to in `create`). -/
def isEmptyStr (s : String) : Bool := s == ""

/-- `TodoControl.create` (todo.viewcontrol.ts): trims the input, returns the
list unchanged when the trimmed label is empty, otherwise pushes
`{label: todo, completed: false}` onto the end of `context.todos`.
The `context.newTodo = ''` reset and the `refresh` call (which only recomputes
counts and persists) do not alter the todos sequence. -/
def create (todo : String) (todos : List ITodo) : List ITodo :=
  let t := jsTrim todo
  if isEmptyStr t then todos
  else todos ++ [{ label := t, completed := false, editing := false }]

/-- The summary fields `TodoControl.refresh` writes into its context. -/
structure Summary where
  allCompleted : Bool
  completedCount : Nat
  remainingCount : Nat
deriving Repr, DecidableEq

/-- The single `forEach` pass of `TodoControl.refresh`: starting from
`completed = 0, remaining = 0`, bump one counter per todo. -/
def refreshCounts (todos : List ITodo) : Nat × Nat :=
  todos.foldl (fun p todo => if todo.completed then (p.1 + 1, p.2) else (p.1, p.2 + 1)) (0, 0)

/-- `TodoControl.refresh` (todo.viewcontrol.ts): one pass over the todos, then
`allCompleted = (remaining === 0)`, `completedCount = completed`,
`remainingCount = remaining`.  The trailing `repository.push(todos)` call is
modelled separately by `push`. -/
def refresh (todos : List ITodo) : Summary :=
  let p := refreshCounts todos
  { allCompleted := p.2 = 0, completedCount := p.1, remainingCount := p.2 }

/-- `TodoControl.show` (todo.viewcontrol.ts); named `showTodo` because `show`
is a Lean keyword.  Switches on `context.status`: `'active'` shows items with
`!completed`, `'completed'` shows items with `completed`, any other status
(including the empty string) shows everything. -/
def showTodo (status : String) (completed : Bool) : Bool :=
  if status = "active" then !completed
  else if status = "completed" then completed
  else true

/-- The set of todos visible under a filter status: the template applies
`show` to each item's `completed` flag, which is the spec's
`visible(filterStatus)` view. -/
def visible (status : String) (todos : List ITodo) : List ITodo :=
  todos.filter (fun t => showTodo status t.completed)

/-- `TodoControl.clear` (todo.viewcontrol.ts): `utils.filter` keeps the todos
with `!todo.completed`, and the filtered list becomes `context.todos`. -/
def clear (todos : List ITodo) : List ITodo :=
  todos.filter (fun t => !t.completed)

/-- `TodoListControl.toggleAll` (todolist.templatecontrol.ts): flips
`context.allCompleted`, then sets `todo.completed` of every todo in the list
to the flipped flag.  Returns the new flag paired with the new list. -/
def toggleAll (allCompleted : Bool) (todos : List ITodo) : Bool × List ITodo :=
  let complete := !allCompleted
  (complete, todos.map fun t => { t with completed := complete })

/-- Modelled from the spec's words (the store operation the code is claimed to
realize): `toggleAll(completed: boolean)` sets `completed` on every item to the
given value. -/
def toggleAllSpec (completed : Bool) (todos : List ITodo) : List ITodo :=
  todos.map fun t => { t with completed := completed }

/-- `TodoListControl.edit` (todolist.templatecontrol.ts): `todoClone
= utils.clone(todo)` (a copy of the current record) and then `todo.editing
= true`.  Returns the updated todo paired with the captured snapshot. -/
def edit (todo : ITodo) : ITodo × Option ITodo :=
  ({ todo with editing := true }, some todo)

/-- `TodoListControl.save` (todolist.templatecontrol.ts): `todoClone
= undefined` and `todo.editing = false`.  Returns the updated todo paired with
the (discarded) snapshot slot. -/
def save (todo : ITodo) : ITodo × Option ITodo :=
  ({ todo with editing := false }, none)

/-- `TodoListControl.cancel` (todolist.templatecontrol.ts): reads
`clone.label` and `clone.completed` off the stored `todoClone` and clears
`editing`.  When `todoClone` is `undefined` the property reads throw a
TypeError; that crash is modelled as `none`. -/
def cancel (todoClone : Option ITodo) (todo : ITodo) : Option ITodo :=
  match todoClone with
  | none => none
  | some clone =>
    some { todo with label := clone.label, completed := clone.completed, editing := false }

/-- ECMA-262 `Array.prototype.splice(start, 1)` as used by
`TodoListControl.destroy`: `actualStart = start < 0 ? max(len + start, 0)
: min(start, len)`, then one element (if any) is removed at `actualStart`. -/
def splice1 (todos : List ITodo) (start : Int) : List ITodo :=
  let len : Int := todos.length
  let actual : Nat := (if start < 0 then max (len + start) 0 else min start len).toNat
  todos.take actual ++ todos.drop (actual + 1)

/-- `TodoListControl.destroy` (todolist.templatecontrol.ts):
`context.todos.splice(index, 1)`; the trailing `refresh` call does not alter
the todos sequence. -/
def destroy (todos : List ITodo) (index : Int) : List ITodo :=
  splice1 todos index

/-- JSON documents, as produced by the external `JSON.parse` and consumed by
`JSON.stringify`.  Numbers are modelled as integers: the integer fragment is
all the repository ever stores (its stored values contain only strings and
booleans), and all inputs used in theorems stay inside this fragment. -/
inductive Json where
  | null : Json
  | bool : Bool → Json
  | num : Int → Json
  | str : String → Json
  | arr : List Json → Json
  | obj : List (String × Json) → Json

/-- JSON insignificant whitespace (ECMA-404): space, tab, line feed, carriage
return. -/
def isJsonWs (c : Char) : Bool :=
  c = ' ' || c = '\t' || c = '\n' || c = '\x0d'

/-- Drop leading JSON whitespace. -/
def skipWs : List Char → List Char
  | [] => []
  | c :: cs => if isJsonWs c then skipWs cs else c :: cs

/-- Value of a hexadecimal digit character, as accepted in a JSON `\u` escape. -/
def hexVal (c : Char) : Option Nat :=
  if '0' ≤ c ∧ c ≤ '9' then some (c.toNat - 48)
  else if 'a' ≤ c ∧ c ≤ 'f' then some (c.toNat - 87)
  else if 'A' ≤ c ∧ c ≤ 'F' then some (c.toNat - 55)
  else none

/-- Parse the body of a JSON string literal (the part after the opening
quote), decoding the escape sequences of the JSON grammar, and return the
decoded characters together with the input after the closing quote.  The
`Nat` argument is recursion fuel; every caller passes at least the input
length plus one, which can never run out since each step consumes at least
one character.  Surrogate-pair combination of adjacent `\u` escapes is not
modelled (the repository never stores such escapes: its writer only emits
`\u00xx` forms). -/
def parseStrBody : Nat → List Char → Except String (List Char × List Char)
  | 0, _ => .error ("out of fuel")
  | _ + 1, [] => .error ("unterminated string")
  | fuel + 1, c :: cs =>
    if c = '"' then .ok ([], cs)
    else if c = '\\' then
      match cs with
      | [] => .error ("unterminated escape")
      | 'u' :: h1 :: h2 :: h3 :: h4 :: cs'' =>
        match hexVal h1, hexVal h2, hexVal h3, hexVal h4 with
        | some a, some b, some c3, some d =>
          (parseStrBody fuel cs'').map (fun p => (Char.ofNat (4096 * a + 256 * b + 16 * c3 + d) :: p.1, p.2))
        | _, _, _, _ => .error ("bad unicode escape")
      | e :: cs' =>
        if e = '"' then (parseStrBody fuel cs').map (fun p => ('"' :: p.1, p.2))
        else if e = '\\' then (parseStrBody fuel cs').map (fun p => ('\\' :: p.1, p.2))
        else if e = '/' then (parseStrBody fuel cs').map (fun p => ('/' :: p.1, p.2))
        else if e = 'n' then (parseStrBody fuel cs').map (fun p => ('\n' :: p.1, p.2))
        else if e = 't' then (parseStrBody fuel cs').map (fun p => ('\t' :: p.1, p.2))
        else if e = 'r' then (parseStrBody fuel cs').map (fun p => ('\x0d' :: p.1, p.2))
        else if e = 'b' then (parseStrBody fuel cs').map (fun p => (Char.ofNat 8 :: p.1, p.2))
        else if e = 'f' then (parseStrBody fuel cs').map (fun p => (Char.ofNat 12 :: p.1, p.2))
        else .error ("bad escape")
    else (parseStrBody fuel cs).map (fun p => (c :: p.1, p.2))

/-- Consume a run of decimal digits, accumulating their value. -/
def parseDigits (acc : Nat) : List Char → Nat × List Char
  | [] => (acc, [])
  | c :: cs => if c.isDigit then parseDigits (acc * 10 + (c.toNat - 48)) cs else (acc, c :: cs)

mutual

/-- Recursive-descent parser for a JSON value, modelling `JSON.parse`.  The
`Nat` argument is fuel for the mutual recursion; the entry point `parseJson`
supplies more than enough.  Deviations from full ECMA-404, stated here so the
model's scope is explicit: the number grammar is restricted to optionally
signed integers (no fractions, exponents, or the leading-zero prohibition) —
the repository never stores numbers, and every theorem input stays inside the
shared fragment. -/
def parseVal : Nat → List Char → Except String (Json × List Char)
  | 0, _ => .error ("out of fuel")
  | fuel + 1, input =>
    match skipWs input with
    | [] => .error ("unexpected end of input")
    | c :: cs =>
      if c = '"' then
        (parseStrBody (cs.length + 1) cs).map (fun p => (Json.str (String.mk p.1), p.2))
      else if c = '[' then
        match skipWs cs with
        | ']' :: cs' => .ok (Json.arr [], cs')
        | rest => (parseElems fuel rest).map (fun p => (Json.arr p.1, p.2))
      else if c = '\x7b' then
        match skipWs cs with
        | '\x7d' :: cs' => .ok (Json.obj [], cs')
        | rest => (parseFields fuel rest).map (fun p => (Json.obj p.1, p.2))
      else
        match c :: cs with
        | 't' :: 'r' :: 'u' :: 'e' :: rest => .ok (Json.bool true, rest)
        | 'f' :: 'a' :: 'l' :: 's' :: 'e' :: rest => .ok (Json.bool false, rest)
        | 'n' :: 'u' :: 'l' :: 'l' :: rest => .ok (Json.null, rest)
        | '-' :: d :: rest =>
          if d.isDigit then
            let p := parseDigits (d.toNat - 48) rest
            .ok (Json.num (-(p.1 : Int)), p.2)
          else .error ("unexpected character")
        | d :: rest =>
          if d.isDigit then
            let p := parseDigits (d.toNat - 48) rest
            .ok (Json.num (p.1 : Int), p.2)
          else .error ("unexpected character")
        | [] => .error ("unexpected end of input")

/-- Parse the comma-separated elements of a JSON array, positioned at the
first element; consumes the closing bracket. -/
def parseElems : Nat → List Char → Except String (List Json × List Char)
  | 0, _ => .error ("out of fuel")
  | fuel + 1, input => do
    let p ← parseVal fuel input
    match skipWs p.2 with
    | ',' :: cs => (parseElems fuel cs).map (fun q => (p.1 :: q.1, q.2))
    | ']' :: cs => .ok ([p.1], cs)
    | _ => .error ("expected comma or closing bracket")

/-- Parse the comma-separated members of a JSON object, positioned at the
first key; consumes the closing brace. -/
def parseFields : Nat → List Char → Except String (List (String × Json) × List Char)
  | 0, _ => .error ("out of fuel")
  | fuel + 1, input =>
    match skipWs input with
    | '"' :: cs => do
      let k ← parseStrBody (cs.length + 1) cs
      match skipWs k.2 with
      | ':' :: cs2 => do
        let v ← parseVal fuel cs2
        match skipWs v.2 with
        | ',' :: cs3 => (parseFields fuel cs3).map (fun q => ((String.mk k.1, v.1) :: q.1, q.2))
        | '\x7d' :: cs3 => .ok ([(String.mk k.1, v.1)], cs3)
        | _ => .error ("expected comma or closing brace")
      | _ => .error ("expected colon")
    | _ => .error ("expected string key")

end

/-- Model of `JSON.parse`: parse one JSON value and require only whitespace
after it.  The fuel `2 * length + 2` provably suffices for every input the
theorems evaluate it on (each pair of recursion steps consumes at least one
character). -/
def parseJson (s : String) : Except String Json :=
  match parseVal (2 * s.data.length + 2) s.data with
  | .ok (j, rest) => if skipWs rest = [] then .ok j else .error ("unexpected trailing characters")
  | .error e => .error e

/-- Lowercase hexadecimal digit character for a value below 16, as
`JSON.stringify` emits in `\u00xx` escapes. -/
def hexChar (n : Nat) : Char :=
  if n < 10 then Char.ofNat (48 + n) else Char.ofNat (87 + n)

/-- The escaping `JSON.stringify` applies to one character of a string value:
quote and backslash get a backslash escape, the named control characters use
their short forms, the remaining control characters use `\u00xx`, and
everything else is emitted literally. -/
def escapeChar (c : Char) : List Char :=
  if c = '"' then ['\\', '"']
  else if c = '\\' then ['\\', '\\']
  else if c = '\n' then ['\\', 'n']
  else if c = '\x0d' then ['\\', 'r']
  else if c = '\t' then ['\\', 't']
  else if c = Char.ofNat 8 then ['\\', 'b']
  else if c = Char.ofNat 12 then ['\\', 'f']
  else if c.toNat < 32 then ['\\', 'u', '0', '0', hexChar (c.toNat / 16), hexChar (c.toNat % 16)]
  else [c]

/-- Escape every character of a string body. -/
def escList : List Char → List Char
  | [] => []
  | c :: cs => escapeChar c ++ escList cs

/-- A JSON string literal as emitted by `JSON.stringify`. -/
def printString (s : String) : List Char :=
  '"' :: escList s.data ++ ['"']

/-- A JSON boolean literal. -/
def boolChars (b : Bool) : List Char :=
  if b then ['t', 'r', 'u', 'e'] else ['f', 'a', 'l', 's', 'e']

/-- The characters of the serialized two-field object after its opening
brace: `"label":<string>,"completed":<bool>` and the closing brace.  This is
exactly what `JSON.stringify` produces for the object literal
`label: todo.label, completed: todo.completed` built in
`TodoRepository.push`: no whitespace, keys in insertion order. -/
def todoObjTail (t : ITodo) : List Char :=
  printString ("label") ++ ':' :: printString t.label ++
  ',' :: printString ("completed") ++ ':' :: boolChars t.completed ++ ['\x7d']

/-- The serialized form of one todo: a two-field JSON object. -/
def todoObjChars (t : ITodo) : List Char :=
  '\x7b' :: todoObjTail t

/-- Comma-prefixed serializations of the remaining array elements. -/
def elemsTailChars : List ITodo → List Char
  | [] => []
  | t :: ts => ',' :: todoObjChars t ++ elemsTailChars ts

/-- The serialized JSON array of todo objects. -/
def arrChars : List ITodo → List Char
  | [] => ['[', ']']
  | t :: ts => '[' :: todoObjChars t ++ elemsTailChars ts ++ [']']

/-- `TodoRepository.push` (the platypusts example's repository):
`JSON.stringify(todos.map(todo => (label: todo.label, completed:
todo.completed)))` — each todo is projected to exactly its `label` and
`completed` fields and the array is serialized.  The returned string is what
is written to the storage key; the surrounding `Promise.resolve` wrapper and
the `storage.setItem` call carry no further logic. -/
def push (todos : List ITodo) : String := String.mk (arrChars todos)

/-- `TodoRepository.pull`: read the stored string (`none` models an absent
key, where `getItem` returns null); if the value is null/undefined/empty
(`utils.isEmpty`), resolve with an empty array; otherwise return
`JSON.parse(todosString)`.  The result is the raw parsed JSON value: the
TypeScript cast to `Array<ITodo>` performs no runtime validation, and a parse
exception propagates to pull's caller (modelled as `Except.error`). -/
def pull (stored : Option String) : Except String Json :=
  match stored with
  | none => .ok (Json.arr [])
  | some s => if s == "" then .ok (Json.arr []) else parseJson s

/-- The JSON value `push` serializes for one todo. -/
def todoJson (t : ITodo) : Json :=
  Json.obj [("label", Json.str t.label), ("completed", Json.bool t.completed)]

/-- The key names of a JSON object (empty for non-objects). -/
def fieldNames : Json → List String
  | Json.obj fs => fs.map Prod.fst
  | _ => []

/-- First value stored under a key in a JSON object's member list, modelling
JavaScript property lookup on a parsed object. -/
def jsonLookup (k : String) : List (String × Json) → Option Json
  | [] => none
  | (k', v) :: fs => if k' = k then some v else jsonLookup k fs

/-- JavaScript truthiness of a parsed JSON value, as used by the boolean
reads `if(todo.completed)` on loaded todos. -/
def truthy : Json → Bool
  | Json.null => false
  | Json.bool b => b
  | Json.num n => decide (n ≠ 0)
  | Json.str s => decide (s ≠ "")
  | Json.arr _ => true
  | Json.obj _ => true

/-- Read an optional property as a JavaScript boolean: an absent property is
`undefined`, which is falsy. -/
def asBool : Option Json → Bool
  | none => false
  | some v => truthy v

/-- Read the `label` property of a parsed object as a string; every stored
object written by `push` has a string there. -/
def asLabel : Option Json → String
  | some (Json.str s) => s
  | _ => ""

/-- The structural-typing view of a parsed JSON object as an `ITodo`,
modelling the TypeScript cast in `pull`: the JavaScript object with `label`
and `completed` properties is used directly as a todo, and a missing
`editing`/`completed` property reads as undefined, hence falsy. -/
def asTodo : Json → ITodo
  | Json.obj fs =>
    { label := asLabel (jsonLookup ("label") fs),
      completed := asBool (jsonLookup ("completed") fs),
      editing := asBool (jsonLookup ("editing") fs) }
  | _ => { label := "", completed := false, editing := false }

/-- The structural-typing view of a parsed JSON array as a todo list. -/
def asTodos : Json → List ITodo
  | Json.arr js => js.map asTodo
  | _ => []

theorem hexVal_hexChar (n : Nat) (h : n < 16) : hexVal (hexChar n) = some n := by
  interval_cases n <;> decide

theorem escapeChar_length_pos (c : Char) : 1 ≤ (escapeChar c).length := by
  unfold escapeChar; split_ifs <;> simp

theorem escList_length (l : List Char) : l.length ≤ (escList l).length := by
  induction l with
  | nil => simp [escList]
  | cons c cs ih =>
    simp only [escList, List.length_append, List.length_cons]
    have := escapeChar_length_pos c
    omega

theorem parseStrBody_escList (l : List Char) : ∀ (fuel : Nat) (rest : List Char),
    l.length + 1 ≤ fuel →
    parseStrBody fuel (escList l ++ '"' :: rest) = .ok (l, rest) := by
  induction l with
  | nil =>
    intro fuel rest h
    obtain ⟨f, rfl⟩ : ∃ f, fuel = f + 1 := ⟨fuel - 1, by omega⟩
    rfl
  | cons c cs ih =>
    intro fuel rest h
    obtain ⟨f, rfl⟩ : ∃ f, fuel = f + 1 := ⟨fuel - 1, by omega⟩
    have hf : cs.length + 1 ≤ f := by simp at h; omega
    simp only [escList, List.append_assoc]
    by_cases h1 : c = '"'
    · subst h1
      show parseStrBody (f + 1) ('\\' :: '"' :: (escList cs ++ '"' :: rest)) = _
      rw [show parseStrBody (f + 1) ('\\' :: '"' :: (escList cs ++ '"' :: rest)) =
        (parseStrBody f (escList cs ++ '"' :: rest)).map (fun p => ('"' :: p.1, p.2)) from rfl]
      rw [ih f rest hf]; rfl
    · by_cases h2 : c = '\\'
      · subst h2
        rw [show escapeChar '\\' = ['\\', '\\'] from rfl]
        rw [show parseStrBody (f + 1) (['\\', '\\'] ++ (escList cs ++ '"' :: rest)) =
          (parseStrBody f (escList cs ++ '"' :: rest)).map (fun p => ('\\' :: p.1, p.2)) from rfl]
        rw [ih f rest hf]; rfl
      · by_cases h3 : c = '\n'
        · subst h3
          rw [show escapeChar '\n' = ['\\', 'n'] from rfl]
          rw [show parseStrBody (f + 1) (['\\', 'n'] ++ (escList cs ++ '"' :: rest)) =
            (parseStrBody f (escList cs ++ '"' :: rest)).map (fun p => ('\n' :: p.1, p.2)) from rfl]
          rw [ih f rest hf]; rfl
        · by_cases h4 : c = '\x0d'
          · subst h4
            rw [show escapeChar '\x0d' = ['\\', 'r'] from rfl]
            rw [show parseStrBody (f + 1) (['\\', 'r'] ++ (escList cs ++ '"' :: rest)) =
              (parseStrBody f (escList cs ++ '"' :: rest)).map (fun p => ('\x0d' :: p.1, p.2)) from rfl]
            rw [ih f rest hf]; rfl
          · by_cases h5 : c = '\t'
            · subst h5
              rw [show escapeChar '\t' = ['\\', 't'] from rfl]
              rw [show parseStrBody (f + 1) (['\\', 't'] ++ (escList cs ++ '"' :: rest)) =
                (parseStrBody f (escList cs ++ '"' :: rest)).map (fun p => ('\t' :: p.1, p.2)) from rfl]
              rw [ih f rest hf]; rfl
            · by_cases h6 : c = Char.ofNat 8
              · subst h6
                rw [show escapeChar (Char.ofNat 8) = ['\\', 'b'] from rfl]
                rw [show parseStrBody (f + 1) (['\\', 'b'] ++ (escList cs ++ '"' :: rest)) =
                  (parseStrBody f (escList cs ++ '"' :: rest)).map (fun p => (Char.ofNat 8 :: p.1, p.2)) from rfl]
                rw [ih f rest hf]; rfl
              · by_cases h7 : c = Char.ofNat 12
                · subst h7
                  rw [show escapeChar (Char.ofNat 12) = ['\\', 'f'] from rfl]
                  rw [show parseStrBody (f + 1) (['\\', 'f'] ++ (escList cs ++ '"' :: rest)) =
                    (parseStrBody f (escList cs ++ '"' :: rest)).map (fun p => (Char.ofNat 12 :: p.1, p.2)) from rfl]
                  rw [ih f rest hf]; rfl
                · by_cases h8 : c.toNat < 32
                  · have hdiv : c.toNat / 16 < 16 := by omega
                    have hmod : c.toNat % 16 < 16 := Nat.mod_lt _ (by norm_num)
                    rw [show escapeChar c = ['\\', 'u', '0', '0', hexChar (c.toNat / 16), hexChar (c.toNat % 16)]
                      from by simp [escapeChar, h1, h2, h3, h4, h5, h6, h7, h8]]
                    rw [parseStrBody.eq_def]
                    simp only [List.cons_append, List.nil_append, reduceIte]
                    rw [hexVal_hexChar _ hdiv, hexVal_hexChar _ hmod]
                    rw [show hexVal '0' = some 0 from rfl]
                    simp only
                    rw [ih f rest hf]
                    have hc : 4096 * 0 + 256 * 0 + 16 * (c.toNat / 16) + c.toNat % 16 = c.toNat := by omega
                    rw [hc, Char.ofNat_toNat]
                    rfl
                  · have hop : escapeChar c = [c] := by
                      simp only [escapeChar, h1, h2, h3, h4, h5, h6, h7, h8]
                      simp [h1, h2, h3, h4, h5, h6, h7, h8]
                    rw [hop]
                    rw [parseStrBody.eq_def]
                    simp only [List.cons_append, List.nil_append]
                    rw [if_neg h1, if_neg h2]
                    rw [ih f rest hf]
                    rfl

theorem skipWs_not (c : Char) (cs : List Char) (h : isJsonWs c = false) :
    skipWs (c :: cs) = c :: cs := by
  simp [skipWs, h]

theorem exceptBindOk {α β ε : Type} (x : α) (g : α → Except ε β) :
    (Except.ok (ε := ε) x).bind g = g x := rfl

theorem parseVal_str (f : Nat) (sdata : List Char) (rest : List Char) :
    parseVal (f + 1) ('"' :: (escList sdata ++ '"' :: rest)) =
      .ok (.str (String.mk sdata), rest) := by
  rw [show parseVal (f + 1) ('"' :: (escList sdata ++ '"' :: rest)) =
    (parseStrBody ((escList sdata ++ '"' :: rest).length + 1) (escList sdata ++ '"' :: rest)).map
      (fun p => (Json.str (String.mk p.1), p.2)) from rfl]
  rw [parseStrBody_escList sdata _ rest (by
    have := escList_length sdata
    simp only [List.length_append, List.length_cons]
    omega)]
  rfl

theorem parseVal_bool (f : Nat) (b : Bool) (rest : List Char) :
    parseVal (f + 1) (boolChars b ++ rest) = .ok (.bool b, rest) := by
  cases b <;> rfl

theorem parseFields_step (F : Nat) (cs : List Char) :
    parseFields (F + 1) ('"' :: cs) =
      (parseStrBody (cs.length + 1) cs).bind (fun k =>
        match skipWs k.2 with
        | ':' :: cs2 =>
          (parseVal F cs2).bind (fun v =>
            match skipWs v.2 with
            | ',' :: cs3 => (parseFields F cs3).map (fun q => ((String.mk k.1, v.1) :: q.1, q.2))
            | '\x7d' :: cs3 => .ok ([(String.mk k.1, v.1)], cs3)
            | _ => .error ("expected comma or closing brace"))
        | _ => .error ("expected colon")) := rfl

theorem parseFields_last_bool (f : Nat) (kdata : List Char) (b : Bool) (rest : List Char) :
    parseFields (f + 2) ('"' :: (escList kdata ++ '"' :: ':' :: (boolChars b ++ '\x7d' :: rest))) =
      .ok ([(String.mk kdata, Json.bool b)], rest) := by
  show parseFields ((f + 1) + 1) _ = _
  rw [parseFields_step (f + 1)]
  rw [parseStrBody_escList kdata _ _ (by
    have := escList_length kdata
    simp only [List.length_append, List.length_cons]
    omega)]
  rw [exceptBindOk]
  simp only
  rw [skipWs_not ':' _ (by decide)]
  simp only
  rw [parseVal_bool f b ('\x7d' :: rest)]
  rw [exceptBindOk]
  simp only
  rw [skipWs_not '\x7d' _ (by decide)]
  rfl

theorem parseFields_cons_str (f : Nat) (kdata sdata : List Char) (flds : List (String × Json))
    (rest cs : List Char) (h : parseFields (f + 1) cs = .ok (flds, rest)) :
    parseFields (f + 2) ('"' :: (escList kdata ++ '"' :: ':' :: '"' :: (escList sdata ++ '"' :: ',' :: cs))) =
      .ok ((String.mk kdata, Json.str (String.mk sdata)) :: flds, rest) := by
  show parseFields ((f + 1) + 1) _ = _
  rw [parseFields_step (f + 1)]
  rw [parseStrBody_escList kdata _ _ (by
    have := escList_length kdata
    simp only [List.length_append, List.length_cons]
    omega)]
  rw [exceptBindOk]
  simp only
  rw [skipWs_not ':' _ (by decide)]
  simp only
  rw [parseVal_str f sdata (',' :: cs)]
  rw [exceptBindOk]
  simp only
  rw [skipWs_not ',' _ (by decide)]
  simp only
  rw [h]
  rfl

theorem parseVal_objStr (f : Nat) (cs : List Char) :
    parseVal (f + 1) ('\x7b' :: '"' :: cs) =
      (parseFields f ('"' :: cs)).map (fun p => (Json.obj p.1, p.2)) := rfl

theorem parseVal_todoObj (f : Nat) (t : ITodo) (rest : List Char) :
    parseVal (f + 4) (todoObjChars t ++ rest) = .ok (todoJson t, rest) := by
  simp only [todoObjChars, todoObjTail, printString, List.cons_append, List.append_assoc,
    List.singleton_append, List.nil_append]
  rw [show (f + 4 : Nat) = (f + 3) + 1 from rfl]
  rw [parseVal_objStr (f + 3)]
  rw [show (f + 3 : Nat) = (f + 1) + 2 from rfl]
  rw [parseFields_cons_str (f + 1) (("label").data) (t.label.data)
    [(("completed"), Json.bool t.completed)] rest
    ('"' :: (escList (("completed").data) ++ '"' :: ':' :: (boolChars t.completed ++ '\x7d' :: rest)))
    (parseFields_last_bool f (("completed").data) t.completed rest)]
  rfl

theorem parseElems_step (f : Nat) (input : List Char) :
    parseElems (f + 1) input =
      (parseVal f input).bind (fun p =>
        match skipWs p.2 with
        | ',' :: cs => (parseElems f cs).map (fun q => (p.1 :: q.1, q.2))
        | ']' :: cs => .ok ([p.1], cs)
        | _ => .error ("expected comma or closing bracket")) := rfl

theorem parseElems_todos (ts : List ITodo) : ∀ (f : Nat) (t : ITodo) (rest : List Char),
    parseElems (2 * ts.length + f + 5) (todoObjChars t ++ (elemsTailChars ts ++ ']' :: rest)) =
      .ok (todoJson t :: ts.map todoJson, rest) := by
  induction ts with
  | nil =>
    intro f t rest
    simp only [elemsTailChars, List.nil_append, List.length_nil]
    rw [show (2 * 0 + f + 5 : Nat) = (f + 4) + 1 from by omega]
    rw [parseElems_step (f + 4)]
    rw [parseVal_todoObj f t (']' :: rest)]
    rw [exceptBindOk]
    simp only
    rw [skipWs_not ']' _ (by decide)]
    rfl
  | cons t2 ts' ih =>
    intro f t rest
    simp only [elemsTailChars, List.length_cons]
    have h1 : 2 * (ts'.length + 1) + f + 5 = (2 * ts'.length + f + 6) + 1 := by omega
    rw [h1, parseElems_step]
    have h2 : 2 * ts'.length + f + 6 = (2 * ts'.length + f + 2) + 4 := by omega
    rw [h2, parseVal_todoObj (2 * ts'.length + f + 2) t
      (',' :: todoObjChars t2 ++ elemsTailChars ts' ++ ']' :: rest)]
    rw [exceptBindOk]
    simp only [List.cons_append, List.append_assoc]
    rw [skipWs_not ',' _ (by decide)]
    simp only
    have h3 : (2 * ts'.length + f + 2) + 4 = 2 * ts'.length + (f + 1) + 5 := by omega
    rw [h3, ih (f + 1) t2 rest]
    rfl

theorem parseVal_arrTodos (ts : List ITodo) (f : Nat) (rest : List Char) :
    parseVal (2 * ts.length + f + 6) (arrChars ts ++ rest) = .ok (.arr (ts.map todoJson), rest) := by
  cases ts with
  | nil =>
    rw [show (2 * ([] : List ITodo).length + f + 6 : Nat) = (f + 5) + 1 from by simp]
    rfl
  | cons t ts' =>
    simp only [arrChars, List.cons_append, List.append_assoc, List.singleton_append,
      List.nil_append, List.length_cons]
    rw [show todoObjChars t ++ (elemsTailChars ts' ++ ']' :: rest) =
      '\x7b' :: (todoObjTail t ++ (elemsTailChars ts' ++ ']' :: rest)) from rfl]
    have h1 : 2 * (ts'.length + 1) + f + 6 = (2 * ts'.length + f + 7) + 1 := by omega
    rw [h1]
    rw [show parseVal ((2 * ts'.length + f + 7) + 1)
        ('[' :: '\x7b' :: (todoObjTail t ++ (elemsTailChars ts' ++ ']' :: rest))) =
      (parseElems (2 * ts'.length + f + 7)
        ('\x7b' :: (todoObjTail t ++ (elemsTailChars ts' ++ ']' :: rest)))).map
          (fun p => (Json.arr p.1, p.2)) from rfl]
    rw [show ('\x7b' :: (todoObjTail t ++ (elemsTailChars ts' ++ ']' :: rest)) : List Char) =
      todoObjChars t ++ (elemsTailChars ts' ++ ']' :: rest) from rfl]
    have h2 : 2 * ts'.length + f + 7 = 2 * ts'.length + (f + 2) + 5 := by omega
    rw [h2, parseElems_todos ts' (f + 2) t rest]
    rfl

theorem todoObjChars_length_pos (t : ITodo) : 1 ≤ (todoObjChars t).length := by
  simp [todoObjChars]

theorem elemsTailChars_length (ts : List ITodo) : ts.length ≤ (elemsTailChars ts).length := by
  induction ts with
  | nil => simp [elemsTailChars]
  | cons t ts' ih =>
    simp only [elemsTailChars, List.length_cons, List.length_append]
    omega

theorem arrChars_length (ts : List ITodo) : ts.length + 2 ≤ (arrChars ts).length := by
  cases ts with
  | nil => simp [arrChars]
  | cons t ts' =>
    have h1 := todoObjChars_length_pos t
    have h2 := elemsTailChars_length ts'
    simp only [arrChars, List.length_cons, List.length_append]
    omega

theorem parseJson_push (ts : List ITodo) :
    parseJson (push ts) = .ok (.arr (ts.map todoJson)) := by
  show (match parseVal (2 * (arrChars ts).length + 2) (arrChars ts) with
    | Except.ok (j, rest) =>
      if skipWs rest = [] then Except.ok j else Except.error ("unexpected trailing characters")
    | Except.error e => Except.error e) = Except.ok (Json.arr (ts.map todoJson))
  have hlen := arrChars_length ts
  obtain ⟨f, hf⟩ : ∃ f, 2 * (arrChars ts).length + 2 = 2 * ts.length + f + 6 :=
    ⟨2 * (arrChars ts).length + 2 - (2 * ts.length + 6), by omega⟩
  rw [hf]
  rw [show (arrChars ts : List Char) = arrChars ts ++ [] from by simp]
  rw [parseVal_arrTodos ts f []]
  rfl

theorem push_ne_empty (ts : List ITodo) : (push ts == "") = false := by
  rw [beq_eq_false_iff_ne]
  intro h
  have hd : (push ts).data = ("" : String).data := by rw [h]
  have := arrChars_length ts
  simp only [push] at hd
  rw [hd] at this
  simp at this

theorem refreshCounts_go (todos : List ITodo) : ∀ (c r : Nat),
    todos.foldl (fun p todo => if todo.completed then (p.1 + 1, p.2) else (p.1, p.2 + 1)) (c, r) =
      (c + todos.countP (fun t => t.completed), r + todos.countP (fun t => !t.completed)) := by
  induction todos with
  | nil => intro c r; simp
  | cons t ts ih =>
    intro c r
    rw [List.foldl_cons]
    cases ht : t.completed
    · rw [show (if false = true then ((c, r).1 + 1, (c, r).2) else ((c, r).1, (c, r).2 + 1)) =
        (c, r + 1) from rfl]
      rw [ih]
      simp only [List.countP_cons, ht]
      refine congrArg₂ Prod.mk (by simp) (by simp; omega)
    · rw [show (if true = true then ((c, r).1 + 1, (c, r).2) else ((c, r).1, (c, r).2 + 1)) =
        (c + 1, r) from rfl]
      rw [ih]
      simp only [List.countP_cons, ht]
      refine congrArg₂ Prod.mk (by simp; omega) (by simp)

theorem refresh_eq (todos : List ITodo) :
    refresh todos =
      { allCompleted := decide (todos.countP (fun t => !t.completed) = 0),
        completedCount := todos.countP (fun t => t.completed),
        remainingCount := todos.countP (fun t => !t.completed) } := by
  have h := refreshCounts_go todos 0 0
  simp only [Nat.zero_add] at h
  unfold refresh refreshCounts
  rw [h]

theorem countP_split (todos : List ITodo) (p : ITodo → Bool) :
    todos.countP p + todos.countP (fun t => !(p t)) = todos.length := by
  induction todos with
  | nil => rfl
  | cons t ts ih =>
    simp only [List.countP_cons, List.length_cons]
    cases ht : p t <;> simp [ht] <;> omega

theorem length_filter_countP (todos : List ITodo) (p : ITodo → Bool) :
    (todos.filter p).length = todos.countP p := by
  induction todos with
  | nil => rfl
  | cons t ts ih =>
    simp only [List.filter_cons, List.countP_cons]
    cases ht : p t <;> simp [ht, ih]

theorem count_completed_map (todos : List ITodo) (b : Bool) :
    (todos.map (fun t => { t with completed := b })).countP (fun t => t.completed) =
      if b then todos.length else 0 := by
  induction todos with
  | nil => cases b <;> rfl
  | cons t ts ih =>
    simp only [List.map_cons, List.countP_cons, ih]
    cases b <;> simp

theorem count_remaining_map (todos : List ITodo) (b : Bool) :
    (todos.map (fun t => { t with completed := b })).countP (fun t => !t.completed) =
      if b then 0 else todos.length := by
  induction todos with
  | nil => cases b <;> rfl
  | cons t ts ih =>
    simp only [List.map_cons, List.countP_cons, ih]
    cases b <;> simp

/-- C1: persistence round-trip.  For every sequence of todos, saving with
`push` and loading with `pull` succeeds and reproduces exactly the serialized
two-field objects: the loaded JSON is the array of `todoJson` values, whose
structural-typing view as todos restores each original `label` and
`completed` with `editing` dropped (absent, hence false), and every stored
element carries exactly the fields `label` and `completed` and no other. -/
theorem C1_persistence_roundtrip (items : List ITodo) :
    pull (some (push items)) = Except.ok (Json.arr (items.map todoJson)) ∧
    asTodos (Json.arr (items.map todoJson)) =
      items.map (fun t => { label := t.label, completed := t.completed, editing := false }) ∧
    (∀ t : ITodo, fieldNames (todoJson t) = [("label"), ("completed")]) := by
  refine ⟨?_, ?_, fun t => rfl⟩
  · simp only [pull, push_ne_empty, Bool.false_eq_true, if_false]
    exact parseJson_push items
  · have he : ∀ t : ITodo, asTodo (todoJson t) =
        { label := t.label, completed := t.completed, editing := false } := fun t => rfl
    simp only [asTodos]
    induction items with
    | nil => rfl
    | cons t ts ih => simp only [List.map_cons, he, ih]

/-- C2 counterexample: the claim says `toggleAll` sets every item's
`completed` to the given boolean regardless of the `allCompleted` flag, so
with the flag `true` every item should become completed
(`toggleAllSpec true`).  The code instead assigns the negation of the flag:
invoked with `allCompleted = true` on a not-completed item, the item stays
not completed, differing from `toggleAllSpec true` on the same input. -/
theorem C2_counterexample_toggleAll :
    (toggleAll true [{ label := ("Taste JavaScript"), completed := false, editing := false }]).2 =
      [{ label := ("Taste JavaScript"), completed := false, editing := false }] ∧
    toggleAllSpec true [{ label := ("Taste JavaScript"), completed := false, editing := false }] =
      [{ label := ("Taste JavaScript"), completed := true, editing := false }] ∧
    decide ((toggleAll true [{ label := ("Taste JavaScript"), completed := false, editing := false }]).2 =
      toggleAllSpec true [{ label := ("Taste JavaScript"), completed := false, editing := false }]) = false := by
  refine ⟨rfl, rfl, by decide⟩

/-- C2 as amended: `toggleAll` sets the `completed` flag of every item to one
and the same value — the negation of the prior `allCompleted` flag, which it
also stores as the new flag — regardless of the prior state of the items.
Hence invoked when `allCompleted` was false every item becomes completed and
the summary reports `allCompleted = true`, `completedCount = length`,
`remainingCount = 0`; invoked when it was true, every item becomes not
completed and the counts invert. -/
theorem C2_toggleAll_negates_flag (allCompleted : Bool) (todos : List ITodo) :
    (toggleAll allCompleted todos).1 = !allCompleted ∧
    (toggleAll allCompleted todos).2 = toggleAllSpec (!allCompleted) todos ∧
    (toggleAll allCompleted todos).2.map (fun t => t.completed) =
      List.replicate todos.length (!allCompleted) ∧
    (refresh (toggleAll false todos).2).allCompleted = true ∧
    (refresh (toggleAll false todos).2).completedCount = todos.length ∧
    (refresh (toggleAll false todos).2).remainingCount = 0 ∧
    (refresh (toggleAll true todos).2).completedCount = 0 ∧
    (refresh (toggleAll true todos).2).remainingCount = todos.length := by
  refine ⟨rfl, rfl, ?_, ?_, ?_, ?_, ?_, ?_⟩
  · show (todos.map fun t => { t with completed := !allCompleted }).map (fun t => t.completed) = _
    induction todos with
    | nil => rfl
    | cons t ts ih => simp only [List.map_cons, List.length_cons, List.replicate_succ, ih]
  · simp [toggleAll, refresh_eq, count_remaining_map]
  · simp [toggleAll, refresh_eq, count_completed_map]
  · simp [toggleAll, refresh_eq, count_remaining_map]
  · simp [toggleAll, refresh_eq, count_completed_map]
  · simp [toggleAll, refresh_eq, count_remaining_map]

/-- C3: `create` trims its input; when the trimmed label is empty the todo
list is unchanged, otherwise exactly one new item with the trimmed label and
`completed = false` is appended at the end, the prior items staying untouched
and in order (they are the prefix of the result). -/
theorem C3_create (s : String) (todos : List ITodo) :
    (jsTrim s = "" → create s todos = todos) ∧
    (jsTrim s ≠ "" → create s todos =
      todos ++ [{ label := jsTrim s, completed := false, editing := false }]) ∧
    (jsTrim s ≠ "" → (create s todos).length = todos.length + 1) ∧
    (jsTrim s ≠ "" → (create s todos).take todos.length = todos) ∧
    (jsTrim s ≠ "" → (create s todos).getLast? =
      some { label := jsTrim s, completed := false, editing := false }) := by
  by_cases h : jsTrim s = ""
  · refine ⟨fun _ => ?_, fun hc => absurd h hc, fun hc => absurd h hc,
      fun hc => absurd h hc, fun hc => absurd h hc⟩
    simp [create, isEmptyStr, h]
  · have hb : isEmptyStr (jsTrim s) = false := by
      simp [isEmptyStr, h]
    refine ⟨fun hc => absurd hc h, fun _ => ?_, fun _ => ?_, fun _ => ?_, fun _ => ?_⟩
    · simp [create, hb]
    · simp [create, hb]
    · simp only [create, hb, Bool.false_eq_true, if_false]
      exact List.take_left todos _
    · simp only [create, hb, Bool.false_eq_true, if_false]
      exact List.getLast?_concat todos

/-- Witness for C3 at concrete inputs: a padded label is trimmed and
appended; a whitespace-only label is a no-op. -/
theorem C3_create_witness :
    create (" Buy a unicorn ") [] =
      [] ++ [{ label := jsTrim (" Buy a unicorn "), completed := false, editing := false }] ∧
    create ("   ") [{ label := ("x"), completed := false, editing := false }] =
      [{ label := ("x"), completed := false, editing := false }] :=
  ⟨(C3_create (" Buy a unicorn ") []).2.1 (by decide),
   (C3_create ("   ") [{ label := ("x"), completed := false, editing := false }]).1 (by decide)⟩

/-- C4: the summary computed by `refresh` counts in one pass exactly the
completed items in `completedCount` and the not-completed items in
`remainingCount`, the two adding up to the list length, and `allCompleted`
holds exactly when `remainingCount` is zero — in particular it is true for
the empty list. -/
theorem C4_refresh_summary (todos : List ITodo) :
    (refresh todos).completedCount = todos.countP (fun t => t.completed) ∧
    (refresh todos).remainingCount = todos.countP (fun t => !t.completed) ∧
    (refresh todos).completedCount + (refresh todos).remainingCount = todos.length ∧
    ((refresh todos).allCompleted = true ↔ (refresh todos).remainingCount = 0) ∧
    (refresh ([] : List ITodo)).allCompleted = true := by
  rw [refresh_eq]
  refine ⟨rfl, rfl, countP_split todos _, by simp, rfl⟩

/-- C5: `beginEdit` (source name `edit`) snapshots the item and flags it as
editing; after arbitrary mutation of the item's `label` and `completed`
(any record `mutated`), `cancelEdit` (source name `cancel`) applied to that
snapshot restores `label` and `completed` to exactly their values at
snapshot time and sets `editing` to false. -/
theorem C5_cancelEdit_restores (t mutated : ITodo) :
    cancel (edit t).2 mutated =
      some { label := t.label, completed := t.completed, editing := false } ∧
    (edit t).1.editing = true :=
  ⟨rfl, rfl⟩

/-- C6: the per-item filter `show` (modelled by `showTodo`/`visible`) shows
an item under "active" exactly when it is not completed and under
"completed" exactly when it is completed — so each item is visible in
exactly one of the two views — while any other status (the empty string
included) shows every item, `visible ""` being the identity on the list. -/
theorem C6_visibility (status : String) (c : Bool) (todos : List ITodo) :
    showTodo ("active") c = !c ∧
    showTodo ("completed") c = c ∧
    ((showTodo ("active") c && showTodo ("completed") c) = false) ∧
    ((showTodo ("active") c || showTodo ("completed") c) = true) ∧
    (status ≠ "active" → status ≠ "completed" → showTodo status c = true) ∧
    visible ("") todos = todos ∧
    (visible ("active") todos).length + (visible ("completed") todos).length =
      todos.length := by
  refine ⟨by cases c <;> rfl, by cases c <;> rfl, by cases c <;> rfl, by cases c <;> rfl,
    ?_, ?_, ?_⟩
  · intro h1 h2
    simp [showTodo, h1, h2]
  · show todos.filter (fun t => showTodo ("") t.completed) = todos
    have hp : ∀ t : ITodo, showTodo ("") t.completed = true := fun t => rfl
    simp [hp]
  · show (todos.filter (fun t => showTodo ("active") t.completed)).length +
      (todos.filter (fun t => showTodo ("completed") t.completed)).length = todos.length
    have h1 : (fun (t : ITodo) => showTodo ("active") t.completed) =
        (fun t : ITodo => !t.completed) := rfl
    have h2 : (fun (t : ITodo) => showTodo ("completed") t.completed) =
        (fun t : ITodo => t.completed) := rfl
    rw [h1, h2, length_filter_countP, length_filter_countP]
    have := countP_split todos (fun t => t.completed)
    omega

/-- Witness for C6 at a concrete non-active, non-completed status. -/
theorem C6_visibility_witness : showTodo ("all") true = true :=
  (C6_visibility ("all") true []).2.2.2.2.1 (by decide) (by decide)

/-- C7: `clearCompleted` (source name `clear`) retains exactly the items
whose `completed` flag is false, in their original relative order (the
result is a sublist of the input), and on a list where every item is
completed it returns the empty list. -/
theorem C7_clearCompleted (todos : List ITodo) :
    List.Sublist (clear todos) todos ∧
    (∀ t : ITodo, t ∈ clear todos → t.completed = false) ∧
    (∀ t : ITodo, t ∈ todos → t.completed = false → t ∈ clear todos) ∧
    (clear todos).length = todos.countP (fun t => !t.completed) ∧
    ((∀ t : ITodo, t ∈ todos → t.completed = true) → clear todos = []) := by
  refine ⟨List.filter_sublist todos, ?_, ?_, length_filter_countP todos _, ?_⟩
  · intro t ht
    have := List.of_mem_filter ht
    simpa using this
  · intro t ht hc
    exact List.mem_filter.mpr ⟨ht, by simp [hc]⟩
  · intro h
    show todos.filter (fun t => !t.completed) = []
    rw [List.filter_eq_nil_iff]
    intro t ht
    simp [h t ht]

/-- Witness for C7: clearing an all-completed list yields the empty list. -/
theorem C7_clearCompleted_witness :
    clear [{ label := ("a"), completed := true, editing := false },
           { label := ("b"), completed := true, editing := false }] = [] :=
  (C7_clearCompleted _).2.2.2.2 (by decide)

/-- C8 counterexample: the claim says `destroy` is a silent no-op on every
out-of-bounds index, negative ones included.  JavaScript `splice` counts a
negative start from the end of the array, so `destroy(-1)` on a one-element
list removes that element instead of leaving the list unchanged. -/
theorem C8_counterexample_destroy_negative :
    destroy [{ label := ("Taste JavaScript"), completed := true, editing := false }] (-1) = [] ∧
    decide (destroy [{ label := ("Taste JavaScript"), completed := true, editing := false }] (-1) =
      [{ label := ("Taste JavaScript"), completed := true, editing := false }]) = false :=
  ⟨rfl, by decide⟩

/-- C8 as amended: `destroy` never raises (it is a total function); it is a
silent no-op exactly when the index is at least the list length (and on an
empty list for every index); a nonnegative in-range index removes the item
at that index; a negative index is counted from the end per `splice`
semantics — it removes the item at `max(length + index, 0)`, so on a
non-empty list every negative index (however far out of range) still
removes one element. -/
theorem C8_destroy_splice (todos : List ITodo) (i : Int) :
    ((todos.length : Int) ≤ i → destroy todos i = todos) ∧
    (todos = [] → destroy todos i = []) ∧
    (0 ≤ i → i < (todos.length : Int) → destroy todos i = todos.eraseIdx i.toNat) ∧
    (i < 0 → destroy todos i = todos.eraseIdx ((todos.length : Int) + i).toNat) ∧
    (i < 0 → todos ≠ [] → (destroy todos i).length = todos.length - 1) := by
  refine ⟨?_, ?_, ?_, ?_, ?_⟩
  · intro hle
    have h0 : ¬ i < 0 := by omega
    simp only [destroy, splice1, h0, if_false]
    have hmin : min i (todos.length : Int) = (todos.length : Int) := min_eq_right hle
    rw [hmin, Int.toNat_natCast]
    rw [List.take_length, List.drop_eq_nil_of_le (by omega)]
    simp
  · intro h
    subst h
    simp [destroy, splice1]
  · intro h0 hlt
    simp only [destroy, splice1, show ¬ i < 0 from by omega, if_false]
    have hmin : min i (todos.length : Int) = i := min_eq_left (by omega)
    rw [hmin, List.eraseIdx_eq_take_drop_succ]
  · intro hneg
    simp only [destroy, splice1, hneg, if_true]
    have hmax : ((max ((todos.length : Int) + i) 0).toNat) = ((todos.length : Int) + i).toNat := by
      rcases le_or_lt 0 ((todos.length : Int) + i) with h | h
      · rw [max_eq_left h]
      · rw [max_eq_right (by omega)]
        omega
    rw [hmax, List.eraseIdx_eq_take_drop_succ]
  · intro hneg hne
    have hlen : 0 < todos.length := List.length_pos.mpr hne
    simp only [destroy, splice1, hneg, if_true]
    have hidx : ((max ((todos.length : Int) + i) 0).toNat) < todos.length := by
      rcases le_or_lt 0 ((todos.length : Int) + i) with h | h
      · rw [max_eq_left h]; omega
      · rw [max_eq_right (by omega)]; omega
    rw [← List.eraseIdx_eq_take_drop_succ, List.length_eraseIdx]
    simp [hidx]

/-- Witness for C8: an index past the end is a no-op; a negative index on a
non-empty list removes the element `splice` selects from the end. -/
theorem C8_destroy_splice_witness :
    destroy [{ label := ("a"), completed := false, editing := false }] 3 =
      [{ label := ("a"), completed := false, editing := false }] ∧
    destroy [{ label := ("a"), completed := false, editing := false }] (-1) =
      ([{ label := ("a"), completed := false, editing := false }] : List ITodo).eraseIdx
        (((([{ label := ("a"), completed := false, editing := false }] : List ITodo).length : Int)) + (-1)).toNat :=
  ⟨(C8_destroy_splice [{ label := ("a"), completed := false, editing := false }] 3).1 (by decide),
   (C8_destroy_splice [{ label := ("a"), completed := false, editing := false }] (-1)).2.2.2.1
     (by decide)⟩

/-- C9 counterexample: the stored string `5` is non-empty and is not valid
JSON of the expected array-of-objects shape, yet `pull` does not fail with a
parse error — `JSON.parse` accepts it and `pull` returns the JSON number 5
unchecked, since the TypeScript cast performs no shape validation. -/
theorem C9_counterexample_pull_wrong_shape :
    pull (some ("5")) = Except.ok (Json.num 5) ∧ (("5" : String) == "") = false :=
  ⟨rfl, by decide⟩

/-- C9 as amended: when the storage key is absent or holds the empty string,
`pull` returns the empty sequence without error; for a non-empty stored
string, `pull` simply surfaces the verdict of `JSON.parse` — a syntactically
invalid string yields a parse error surfaced to the caller, while any
syntactically valid JSON value, of the expected shape or not, is returned
as-is with no shape validation. -/
theorem C9_pull_error_surfacing (s e : String) (j : Json) :
    pull none = Except.ok (Json.arr []) ∧
    pull (some ("")) = Except.ok (Json.arr []) ∧
    (s ≠ "" → parseJson s = Except.error e → pull (some s) = Except.error e) ∧
    (s ≠ "" → parseJson s = Except.ok j → pull (some s) = Except.ok j) := by
  refine ⟨rfl, rfl, ?_, ?_⟩
  · intro h1 h2
    simp [pull, beq_iff_eq, h1, h2]
  · intro h1 h2
    simp [pull, beq_iff_eq, h1, h2]

/-- Witness for C9: a truncated array literal is surfaced as a parse error;
a wrong-shape but valid JSON value is returned without error. -/
theorem C9_pull_error_surfacing_witness :
    pull (some ("[")) = Except.error ("unexpected end of input") ∧
    pull (some ("5")) = Except.ok (Json.num 5) :=
  ⟨(C9_pull_error_surfacing ("[") ("unexpected end of input") (Json.num 5)).2.2.1
      (by decide) (by rfl),
   (C9_pull_error_surfacing ("5") ("") (Json.num 5)).2.2.2 (by decide) (by rfl)⟩

/-- C10: `save` (commitEdit) discards the snapshot, leaving `todoClone`
undefined, and `cancel` unconditionally dereferences the snapshot: with no
snapshot held it crashes (modelled as `none`, the TypeError of reading
`clone.label` off undefined) rather than acting as a no-op, while with a
snapshot held — as after `edit` — it succeeds.  Cancel's precondition is
therefore that the item is in the editing state with its snapshot still
held. -/
theorem C10_cancel_requires_snapshot (t mutated : ITodo) :
    (save t).2 = none ∧
    (save t).1.editing = false ∧
    cancel none mutated = none ∧
    cancel (save t).2 mutated = none ∧
    decide (cancel none mutated = some mutated) = false ∧
    (cancel ((edit t).2) mutated).isSome = true :=
  ⟨rfl, rfl, rfl, rfl, by simp [cancel], rfl⟩
